import Mathlib

/-!
Shallow embedding of `program.py` (register allocation by greedy graph
colouring) and verification of the specification claims about it.

The file I/O of the Python program is modelled by passing the input file
text as a `String` argument and returning the output file contents as a
`String`.  Python `dict`s are modelled as association lists in insertion
order; the Python `set` of neighbours is modelled as a deduplicated list
(the program only ever uses its membership and its size).  Character
predicates (`str.isspace`, `str.isdigit`) are modelled on ASCII, which
covers every input the claims are about.
-/

/-- ASCII model of the Python predicate `str.isspace` on one character. -/
def pyIsSpace (c : Char) : Bool :=
  c == ' ' || c == '\t' || c == '\n' || c == '\r' || c == '\x0b' || c == '\x0c'

/-- Python `str.strip()`: remove leading and trailing whitespace. -/
def pyStrip (l : List Char) : List Char :=
  ((l.dropWhile pyIsSpace).reverse.dropWhile pyIsSpace).reverse

/-- Python `str.split(sep)` for a one-character separator. -/
def splitOnChar (sep : Char) : List Char → List (List Char)
  | [] => [[]]
  | c :: cs =>
    match splitOnChar sep cs with
    | [] => [[]]
    | t :: ts => if c == sep then [] :: t :: ts else (c :: t) :: ts

/-- ASCII model of Python `str.isdigit` on a token: nonempty, all digits. -/
def pyIsDigitStr (s : List Char) : Bool :=
  !s.isEmpty && s.all Char.isDigit

/-- Numeric value of a string of decimal digits. -/
def digitsToNat (s : List Char) : Nat :=
  s.foldl (fun a c => a * 10 + (c.toNat - 48)) 0

/-- Python `int(s)` restricted to the strings reachable after the line
validation of the parser (digits, commas and whitespace only, no comma in
a token): `int` tolerates surrounding whitespace and then requires a
nonempty digit string; otherwise it raises `ValueError` (modelled `none`). -/
def pyInt (s : List Char) : Option Nat :=
  let t := pyStrip s
  if pyIsDigitStr t then some (digitsToNat t) else none

/-- Python `readlines` semantics on the file text: split at newline
characters; the final fragment after the last newline is a line only when
it is nonempty, and an empty text has no lines at all. -/
def pyReadLines (text : String) : List (List Char) :=
  let ps := splitOnChar '\n' text.data
  if ps.getLast? = some [] then ps.dropLast else ps

/-- An interference graph: the Python dict as an association list in
insertion order.  The neighbour set of a node is a deduplicated list. -/
abbrev Graph := List (Nat × List Nat)

/-- Message returned for an empty input file. -/
def fileEmptyMsg : String := "Error: The file is empty."

/-- Message returned when a line holds a character that is not a digit, a
comma or whitespace. -/
def invalidCharMsg : String :=
  "Invalid file content; contains characters other than digits, commas, or end-of-line."

/-- Message returned when a node id is below the next expected id. -/
def dupNodeMsg (node : Nat) : String :=
  "Error: Duplicate node definition found for node " ++ toString node ++ "."

/-- Message returned when a node id is above the next expected id. -/
def missingNodeMsg (expected found : Nat) : String :=
  "Error: Missing node definitions or nodes are not in consecutive order. Expected node "
    ++ toString expected ++ ", found " ++ toString found ++ "."

/-- Message returned when a node id lies outside [1, 50]. -/
def nodeRangeMsg : String :=
  "Node number out of range. Each node must be between 1 and 50."

/-- Message returned when a neighbour id lies outside [1, 50]. -/
def neighbourRangeMsg : String :=
  "Neighbor number out of range. Each neighbor must be between 1 and 50."

/-- Message returned when converting a token to an integer fails. -/
def malformedIntMsg : String :=
  "Invalid file content; unable to convert to integers."

/-- The neighbour list of a line: the comma-separated tokens after the
first, keeping (and converting) exactly the tokens that satisfy the digit
test — any other token is silently dropped. -/
def lineNeighbours (line : List Char) : List Nat :=
  ((splitOnChar ',' (pyStrip line)).drop 1).filterMap
    (fun s => if pyIsDigitStr s then some (digitsToNat s) else none)

/-- The body of the line loop of `read_interference_graph_from_file`: the
character validation, the split at commas, the conversion of the leading
token, the consecutive-order check, the node range check, the digit-filtered
neighbour tokens and the neighbour range check, in source order. -/
def parseLine (expected_node : Nat) (line : List Char) :
    Except String (Nat × List Nat) :=
  if !(line.all fun c => c.isDigit || c == ',' || pyIsSpace c) then
    .error invalidCharMsg
  else
    match pyInt (splitOnChar ',' (pyStrip line)).headI with
    | none => .error malformedIntMsg
    | some node =>
      if node ≠ expected_node then
        if node < expected_node then .error (dupNodeMsg node)
        else .error (missingNodeMsg expected_node node)
      else if node < 1 ∨ node > 50 then .error nodeRangeMsg
      else if (lineNeighbours line).any (fun n => decide (n < 1) || decide (n > 50)) then
        .error neighbourRangeMsg
      else .ok (node, (lineNeighbours line).dedup)

/-- The line loop of `read_interference_graph_from_file`, carrying the
expected node id and the graph built so far. -/
def parseLoop : List (List Char) → Nat → Graph → Except String Graph
  | [], _, graph => .ok graph
  | line :: rest, expected_node, graph =>
    match parseLine expected_node line with
    | .error m => .error m
    | .ok entry => parseLoop rest (expected_node + 1) (graph ++ [entry])

/-- `read_interference_graph_from_file`, with the contents of the file
passed as the argument: the empty-file check followed by the line loop
starting at expected node 1. -/
def read_interference_graph_from_file (text : String) : Except String Graph :=
  if (pyReadLines text).isEmpty then .error fileEmptyMsg
  else parseLoop (pyReadLines text) 1 []

/-- The sort key of `rank_nodes_by_neighbours`, Python key `(-count, id)`:
descending neighbour count, ties broken by ascending node id. -/
def rankRel (a b : Nat × List Nat) : Prop :=
  b.2.length < a.2.length ∨ (a.2.length = b.2.length ∧ a.1 ≤ b.1)

instance : DecidableRel rankRel := fun a b =>
  inferInstanceAs (Decidable (b.2.length < a.2.length ∨ (a.2.length = b.2.length ∧ a.1 ≤ b.1)))

instance : IsTotal (Nat × List Nat) rankRel :=
  ⟨fun a b => by unfold rankRel; omega⟩

instance : IsTrans (Nat × List Nat) rankRel :=
  ⟨fun a b c hab hbc => by unfold rankRel at *; omega⟩

/-- `rank_nodes_by_neighbours`: the graph entries sorted by descending
neighbour count, ties by ascending node id (a stable sort, as Python
`sorted`). -/
def rank_nodes_by_neighbours (interference_graph : Graph) :
    List (Nat × List Nat) :=
  List.insertionSort rankRel interference_graph

/-- The colour alphabet of `assign_colours`: the 26 letters A..Z. -/
def colours : List Char := (List.range 26).map (fun i => Char.ofNat (65 + i))

/-- `graph[node]`: the neighbour set of a node (every ranked node is a key
of the graph, so the default never fires on the runs of the program). -/
def nbrsOf (graph : Graph) (node : Nat) : List Nat :=
  (graph.lookup node).getD []

/-- The set of colours already used by the neighbours of a node.  The
Python set holds `colour_assignment.get(n)` for each neighbour `n`, which
is `None` for a neighbour without an assignment; since the scanned colours
are letters and never `None`, collecting only the present values is
equivalent. -/
def usedColours (graph : Graph) (colour_assignment : List (Nat × Char))
    (node : Nat) : List Char :=
  (nbrsOf graph node).filterMap (fun nb => colour_assignment.lookup nb)

/-- The loop of `assign_colours` over the ranked nodes.  A node whose
neighbours use all 26 colours is skipped without an assignment (the inner
loop finds no colour and assigns nothing). -/
def assignAux (graph : Graph) :
    List (Nat × List Nat) → List (Nat × Char) → List (Nat × Char)
  | [], colour_assignment => colour_assignment
  | (node, _) :: rest, colour_assignment =>
    match colours.find? (fun c => !((usedColours graph colour_assignment node).elem c)) with
    | some c => assignAux graph rest (colour_assignment ++ [(node, c)])
    | none => assignAux graph rest colour_assignment

/-- `assign_colours`: greedy colouring of the ranked nodes. -/
def assign_colours (graph : Graph) (ranked : List (Nat × List Nat)) :
    List (Nat × Char) :=
  assignAux graph ranked []

/-- Python tuple order on the items of the colour assignment, used by
`sorted` in `write_output_file`. -/
def pairLe (a b : Nat × Char) : Prop :=
  a.1 < b.1 ∨ (a.1 = b.1 ∧ a.2 ≤ b.2)

instance : DecidableRel pairLe := fun a b =>
  inferInstanceAs (Decidable (a.1 < b.1 ∨ (a.1 = b.1 ∧ a.2 ≤ b.2)))

/-- `write_output_file`, returning the written file contents: one line per
node in ascending node order, the node id immediately followed by its
colour. -/
def write_output_file (colour_assignment : List (Nat × Char)) : String :=
  String.join ((List.insertionSort pairLe colour_assignment).map
    (fun p => toString p.1 ++ toString p.2 ++ "\n"))

/-- The `main` function of the program, on the input file text (Lean
reserves the name `main`, hence the longer name).  `.error msg` means the
classified message was printed and no output file was written; `.ok s`
means the output file was written with contents `s`. -/
def mainProgram (inputText : String) : Except String String :=
  match read_interference_graph_from_file inputText with
  | .error msg => .error msg
  | .ok graph =>
    .ok (write_output_file (assign_colours graph (rank_nodes_by_neighbours graph)))

/-- Edge symmetry of a graph: every neighbour listed for a node that is
itself a node lists that node back. -/
def SymG (g : Graph) : Prop :=
  ∀ a ∈ g.map Prod.fst, ∀ b ∈ nbrsOf g a, b ∈ g.map Prod.fst → a ∈ nbrsOf g b

instance (g : Graph) : Decidable (SymG g) := by
  unfold SymG; exact inferInstance

/-- No node lists itself as a neighbour. -/
def IrrG (g : Graph) : Prop :=
  ∀ a ∈ g.map Prod.fst, a ∉ nbrsOf g a

instance (g : Graph) : Decidable (IrrG g) := by
  unfold IrrG; exact inferInstance

/-- A proper colouring relative to the listed adjacency: two distinct
nodes, one a listed neighbour of the other, never hold the same colour. -/
def ProperColouring (g : Graph) (asg : List (Nat × Char)) : Prop :=
  ∀ a b ca cb, asg.lookup a = some ca → asg.lookup b = some cb →
    b ∈ nbrsOf g a → a ≠ b → ca ≠ cb

/-- Entrywise relation between two representations of one graph: equal keys
in the same order, neighbour lists that are permutations of each other
(the unspecified iteration order of a Python set). -/
def RelNbr (p q : Nat × List Nat) : Prop :=
  p.1 = q.1 ∧ List.Perm p.2 q.2

/-- Two association-list representations of the same graph. -/
def GraphEquiv (g₁ g₂ : Graph) : Prop :=
  List.Forall₂ RelNbr g₁ g₂

/-- The fully connected graph on the nodes 1..27: every node is adjacent
to every other node. -/
def complete27 : Graph :=
  (List.range' 1 27).map
    (fun k => (k, (List.range' 1 27).filter (fun m => m != k)))

/-! ### Association-list lemmas -/

theorem lookup_append {α β : Type} [BEq α] (l₁ l₂ : List (α × β)) (k : α) :
    (l₁ ++ l₂).lookup k = ((l₁.lookup k).or (l₂.lookup k)) := by
  induction l₁ with
  | nil => simp [List.lookup]
  | cons p l ih =>
    cases p with
    | mk a b =>
      rw [List.cons_append]
      cases h : k == a <;> simp [List.lookup_cons, h, ih]

theorem mem_keys_of_lookup {β : Type} {l : List (Nat × β)} {k : Nat} {v : β}
    (h : l.lookup k = some v) : k ∈ l.map Prod.fst := by
  induction l with
  | nil => simp [List.lookup] at h
  | cons p l ih =>
    cases p with
    | mk a b =>
      cases hk : k == a
      · simp only [List.lookup_cons, hk] at h
        exact List.mem_cons_of_mem _ (ih h)
      · have : k = a := eq_of_beq hk
        simp [this]

theorem lookup_singleton {β : Type} {x k : Nat} {v w : β}
    (h : ([(x, v)] : List (Nat × β)).lookup k = some w) : k = x ∧ w = v := by
  cases hk : k == x
  · simp [List.lookup_cons, hk, List.lookup] at h
  · refine ⟨eq_of_beq hk, ?_⟩
    simp [List.lookup_cons, hk] at h
    exact h.symm

theorem lookup_of_mem_of_nodup {β : Type} {l : List (Nat × β)}
    (hnd : (l.map Prod.fst).Nodup) {p : Nat × β} (hp : p ∈ l) :
    l.lookup p.1 = some p.2 := by
  induction l with
  | nil => cases hp
  | cons q l ih =>
    cases q with
    | mk a b =>
      rcases List.mem_cons.mp hp with h | h
      · subst h
        simp [List.lookup_cons]
      · rw [List.map_cons] at hnd
        have hnd2 := List.nodup_cons.mp hnd
        have hne : p.1 ≠ a := by
          intro he
          have hm : p.1 ∈ l.map Prod.fst := List.mem_map_of_mem Prod.fst h
          rw [he] at hm
          exact hnd2.1 hm
        have hk : (p.1 == a) = false := beq_eq_false_iff_ne.mpr hne
        simp only [List.lookup_cons, hk]
        exact ih hnd2.2 h

theorem find?_ext {α : Type} {p q : α → Bool} (h : ∀ a, p a = q a) :
    ∀ l : List α, l.find? p = l.find? q
  | [] => rfl
  | a :: l => by
    rw [List.find?_cons, List.find?_cons, h a]
    cases q a
    · exact find?_ext h l
    · rfl

theorem perm_elem_eq {l₁ l₂ : List Char} (h : List.Perm l₁ l₂) (c : Char) :
    l₁.elem c = l₂.elem c := by
  by_cases hc : c ∈ l₁
  · rw [List.elem_iff.mpr hc, List.elem_iff.mpr (h.mem_iff.mp hc)]
  · have hc2 : c ∉ l₂ := fun hx => hc (h.mem_iff.mpr hx)
    cases h1 : l₁.elem c
    · cases h2 : l₂.elem c
      · rfl
      · exact absurd (List.elem_iff.mp h2) hc2
    · exact absurd (List.elem_iff.mp h1) hc

/-! ### Parser invariants -/

theorem parseLine_ok {e : Nat} {l : List Char} {p : Nat × List Nat}
    (h : parseLine e l = .ok p) :
    p.1 = e ∧ ∀ m ∈ p.2, 1 ≤ m ∧ m ≤ 50 := by
  unfold parseLine at h
  split at h
  · cases h
  · split at h
    · cases h
    · rename_i node heq
      split at h
      · split at h <;> cases h
      · rename_i hne
        split at h
        · cases h
        · split at h
          · cases h
          · rename_i hany
            have hnode : node = e := by
              by_contra hc
              exact hne hc
            injection h with h
            constructor
            · rw [← h]
              exact hnode
            · intro m hm
              rw [← h] at hm
              have hm2 : m ∈ lineNeighbours l := List.mem_dedup.mp hm
              have hm3 : ¬ (decide (m < 1) || decide (m > 50)) = true := by
                intro hx
                exact hany (List.any_eq_true.mpr ⟨m, hm2, hx⟩)
              simp only [Bool.or_eq_true, decide_eq_true_eq] at hm3
              push_neg at hm3
              omega

theorem parseLoop_spec (ls : List (List Char)) :
    ∀ (e : Nat) (g0 g : Graph), parseLoop ls e g0 = .ok g →
      g.map Prod.fst = g0.map Prod.fst ++ List.range' e ls.length ∧
      ∀ p ∈ g, p ∈ g0 ∨ ∀ m ∈ p.2, 1 ≤ m ∧ m ≤ 50 := by
  induction ls with
  | nil =>
    intro e g0 g h
    unfold parseLoop at h
    injection h with h
    subst h
    refine ⟨by simp, fun p hp => Or.inl hp⟩
  | cons line rest ih =>
    intro e g0 g h
    unfold parseLoop at h
    split at h
    · cases h
    · rename_i entry heq
      obtain ⟨hkeys, hmem⟩ := ih (e + 1) (g0 ++ [entry]) g h
      obtain ⟨hfst, hbnd⟩ := parseLine_ok heq
      constructor
      · rw [hkeys, List.map_append, List.length_cons, List.range'_succ]
        simp [hfst]
      · intro p hp
        rcases hmem p hp with hg0 | hb
        · rcases List.mem_append.mp hg0 with h0 | h1
          · exact Or.inl h0
          · rw [List.mem_singleton] at h1
            subst h1
            exact Or.inr hbnd
        · exact Or.inr hb

theorem read_ok_spec {t : String} {g : Graph}
    (h : read_interference_graph_from_file t = .ok g) :
    0 < (pyReadLines t).length ∧
    g.map Prod.fst = List.range' 1 (pyReadLines t).length ∧
    ∀ p ∈ g, ∀ m ∈ p.2, 1 ≤ m ∧ m ≤ 50 := by
  unfold read_interference_graph_from_file at h
  split at h
  · cases h
  · rename_i hne
    obtain ⟨hkeys, hmem⟩ := parseLoop_spec (pyReadLines t) 1 [] g h
    refine ⟨?_, by simpa using hkeys, ?_⟩
    · have hnil : pyReadLines t ≠ [] := by
        intro he
        rw [he] at hne
        exact hne rfl
      exact List.length_pos.mpr hnil
    · intro p hp
      rcases hmem p hp with h0 | hb
      · cases h0
      · exact hb

theorem read_ok_keys_nodup {t : String} {g : Graph}
    (h : read_interference_graph_from_file t = .ok g) :
    (g.map Prod.fst).Nodup := by
  obtain ⟨-, hkeys, -⟩ := read_ok_spec h
  rw [hkeys]
  exact List.nodup_range' 1 (pyReadLines t).length 1 (by norm_num)

/-! ### Greedy colouring invariants -/

theorem assignAux_dom (g : Graph) :
    ∀ (rest : List (Nat × List Nat)) (acc : List (Nat × Char)) (k : Nat) (c : Char),
      (assignAux g rest acc).lookup k = some c →
      (∃ c0, acc.lookup k = some c0) ∨ k ∈ rest.map Prod.fst := by
  intro rest
  induction rest with
  | nil => intro acc k c h; exact Or.inl ⟨c, h⟩
  | cons q rest ih =>
    intro acc k c h
    cases q with
    | mk x ns =>
      unfold assignAux at h
      split at h
      · rename_i c0 hf
        rcases ih _ k c h with ⟨c1, hc1⟩ | hr
        · rw [lookup_append] at hc1
          cases hacc : acc.lookup k with
          | some c2 => exact Or.inl ⟨c2, rfl⟩
          | none =>
            rw [hacc] at hc1
            have hkx : k = x := (lookup_singleton (by simpa using hc1)).1
            exact Or.inr (by simp [hkx])
        · exact Or.inr (by simp [hr])
      · rcases ih _ k c h with h1 | h2
        · exact Or.inl h1
        · exact Or.inr (by simp [h2])

theorem assignAux_proper (g : Graph) (hsym : SymG g) :
    ∀ (rest : List (Nat × List Nat)) (acc : List (Nat × Char)),
      (∀ n ∈ rest.map Prod.fst, n ∈ g.map Prod.fst) →
      (∀ n ∈ rest.map Prod.fst, acc.lookup n = none) →
      (rest.map Prod.fst).Nodup →
      (∀ k c, acc.lookup k = some c → k ∈ g.map Prod.fst) →
      ProperColouring g acc →
      ProperColouring g (assignAux g rest acc) := by
  intro rest
  induction rest with
  | nil => intro acc _ _ _ _ hp; exact hp
  | cons q rest ih =>
    intro acc hsub hnone hnd hdom hp
    cases q with
    | mk x ns =>
      have hx : x ∈ g.map Prod.fst := hsub x (by simp)
      rw [List.map_cons] at hsub hnone hnd
      have hnd2 := List.nodup_cons.mp hnd
      unfold assignAux
      split
      · rename_i c hf
        have hc : (!((usedColours g acc x).elem c)) = true :=
          @List.find?_some Char (fun c => !((usedColours g acc x).elem c)) c colours hf
        have hcnot : c ∉ usedColours g acc x := by
          intro hmem
          rw [List.elem_iff.mpr hmem] at hc
          cases hc
        refine ih (acc ++ [(x, c)]) ?_ ?_ hnd2.2 ?_ ?_
        · intro n hn
          exact hsub n (List.mem_cons_of_mem _ hn)
        · intro n hn
          have hne : n ≠ x := fun he => hnd2.1 (he ▸ hn)
          rw [lookup_append, hnone n (List.mem_cons_of_mem _ hn)]
          have hk : (n == x) = false := beq_eq_false_iff_ne.mpr hne
          simp [List.lookup_cons, hk, List.lookup]
        · intro k c2 hk
          rw [lookup_append] at hk
          cases hacc : acc.lookup k with
          | some c3 => exact hdom k c3 hacc
          | none =>
            rw [hacc] at hk
            have hkx : k = x := (lookup_singleton (by simpa using hk)).1
            rw [hkx]
            exact hx
        · intro a b ca cb hla hlb hadj hne
          rw [lookup_append] at hla hlb
          cases ha : acc.lookup a with
          | some ca0 =>
            rw [ha] at hla
            have hca : ca0 = ca := by simpa using hla
            subst hca
            cases hb : acc.lookup b with
            | some cb0 =>
              rw [hb] at hlb
              have hcb : cb0 = cb := by simpa using hlb
              subst hcb
              exact hp a b ca0 cb0 ha hb hadj hne
            | none =>
              rw [hb] at hlb
              obtain ⟨hbx, hcb⟩ := lookup_singleton (by simpa using hlb)
              subst hbx
              subst hcb
              have haK : a ∈ g.map Prod.fst := hdom a ca0 ha
              have hax : a ∈ nbrsOf g b := hsym a haK b hadj hx
              have hmem : ca0 ∈ usedColours g acc b := by
                unfold usedColours
                exact List.mem_filterMap.mpr ⟨a, hax, by rw [ha]⟩
              intro hcc
              rw [hcc] at hmem
              exact hcnot hmem
          | none =>
            rw [ha] at hla
            obtain ⟨hax, hca⟩ := lookup_singleton (by simpa using hla)
            subst hax
            subst hca
            cases hb : acc.lookup b with
            | some cb0 =>
              rw [hb] at hlb
              have hcb : cb0 = cb := by simpa using hlb
              subst hcb
              have hmem : cb0 ∈ usedColours g acc a := by
                unfold usedColours
                exact List.mem_filterMap.mpr ⟨b, hadj, by rw [hb]⟩
              intro hcc
              rw [← hcc] at hmem
              exact hcnot hmem
            | none =>
              rw [hb] at hlb
              obtain ⟨hbx, -⟩ := lookup_singleton (by simpa using hlb)
              exact absurd hbx.symm (by simpa using hne)
      · exact ih acc
          (fun n hn => hsub n (List.mem_cons_of_mem _ hn))
          (fun n hn => hnone n (List.mem_cons_of_mem _ hn))
          hnd2.2 hdom hp

/-! ### Representation independence of the pipeline -/

theorem rankRel_resp {p q r s : Nat × List Nat} (hpq : RelNbr p q) (hrs : RelNbr r s) :
    rankRel p r ↔ rankRel q s := by
  obtain ⟨h1, h2⟩ := hpq
  obtain ⟨h3, h4⟩ := hrs
  unfold rankRel
  rw [h1, h3, h2.length_eq, h4.length_eq]

theorem orderedInsert_relnbr {p q : Nat × List Nat} (hpq : RelNbr p q) :
    ∀ {l₁ l₂ : List (Nat × List Nat)}, List.Forall₂ RelNbr l₁ l₂ →
      List.Forall₂ RelNbr (l₁.orderedInsert rankRel p) (l₂.orderedInsert rankRel q) := by
  intro l₁ l₂ h
  induction h with
  | nil => exact List.Forall₂.cons hpq List.Forall₂.nil
  | @cons a b t₁ t₂ hab ht ih =>
    by_cases hd : rankRel p a
    · have hd2 : rankRel q b := (rankRel_resp hpq hab).mp hd
      rw [List.orderedInsert, List.orderedInsert, if_pos hd, if_pos hd2]
      exact List.Forall₂.cons hpq (List.Forall₂.cons hab ht)
    · have hd2 : ¬ rankRel q b := fun hh => hd ((rankRel_resp hpq hab).mpr hh)
      rw [List.orderedInsert, List.orderedInsert, if_neg hd, if_neg hd2]
      exact List.Forall₂.cons hab ih

theorem insertionSort_relnbr {l₁ l₂ : List (Nat × List Nat)}
    (h : List.Forall₂ RelNbr l₁ l₂) :
    List.Forall₂ RelNbr (List.insertionSort rankRel l₁) (List.insertionSort rankRel l₂) := by
  induction h with
  | nil => exact List.Forall₂.nil
  | @cons a b t₁ t₂ hab ht ih =>
    rw [List.insertionSort, List.insertionSort]
    exact orderedInsert_relnbr hab ih

theorem nbrsOf_perm {g₁ g₂ : Graph} (h : GraphEquiv g₁ g₂) (x : Nat) :
    List.Perm (nbrsOf g₁ x) (nbrsOf g₂ x) := by
  induction h with
  | nil => exact List.Perm.refl _
  | @cons a b t₁ t₂ hab ht ih =>
    obtain ⟨h1, h2⟩ := hab
    cases a with
    | mk a₁ a₂ =>
      cases b with
      | mk b₁ b₂ =>
        have hb1 : a₁ = b₁ := h1
        subst hb1
        unfold nbrsOf
        cases hx : x == a₁
        · simp only [List.lookup_cons, hx]
          exact ih
        · simp only [List.lookup_cons, hx, Option.getD_some]
          exact h2

theorem assignAux_graphEquiv (g₁ g₂ : Graph)
    (hn : ∀ x, List.Perm (nbrsOf g₁ x) (nbrsOf g₂ x)) :
    ∀ {r₁ r₂ : List (Nat × List Nat)}, List.Forall₂ RelNbr r₁ r₂ →
      ∀ acc, assignAux g₁ r₁ acc = assignAux g₂ r₂ acc := by
  intro r₁ r₂ h
  induction h with
  | nil => intro acc; rfl
  | @cons a b t₁ t₂ hab ht ih =>
    intro acc
    obtain ⟨h1, -⟩ := hab
    cases a with
    | mk x₁ ns₁ =>
      cases b with
      | mk x₂ ns₂ =>
        have hx : x₁ = x₂ := h1
        subst hx
        have hused : ∀ c, (usedColours g₁ acc x₁).elem c = (usedColours g₂ acc x₁).elem c := by
          intro c
          apply perm_elem_eq
          unfold usedColours
          exact (hn x₁).filterMap _
        have hfind :
            colours.find? (fun c => !((usedColours g₁ acc x₁).elem c)) =
            colours.find? (fun c => !((usedColours g₂ acc x₁).elem c)) :=
          find?_ext (fun c => by rw [hused c]) colours
        show assignAux g₁ ((x₁, ns₁) :: t₁) acc = assignAux g₂ ((x₁, ns₂) :: t₂) acc
        unfold assignAux
        rw [hfind]
        cases hf : colours.find? (fun c => !((usedColours g₂ acc x₁).elem c)) with
        | some c => exact ih _
        | none => exact ih _

/-! ### Claim theorems -/

/-- C1 (counterexample): the input `1,2` / `2` declares the edge 1–2 only
from node 1; the pipeline parses it, then assigns colour A to node 1 and
colour A to its listed neighbour 2, so a node does share its colour with a
neighbour listed for it when the edge is declared from only one endpoint. -/
theorem C1_one_sided_edge_conflict :
    read_interference_graph_from_file "1,2\n2" = .ok [(1, [2]), (2, [])] ∧
    (assign_colours [(1, [2]), (2, [])]
      (rank_nodes_by_neighbours [(1, [2]), (2, [])])).lookup 1 = some 'A' ∧
    (assign_colours [(1, [2]), (2, [])]
      (rank_nodes_by_neighbours [(1, [2]), (2, [])])).lookup 2 = some 'A' :=
  ⟨rfl, rfl, rfl⟩

/-- C1 (amended): for every input that parses successfully and whose parsed
graph lists every edge from both endpoints (edge symmetry), the colour
assignment produced by assign_colours gives no node the same colour as any
neighbour listed for it other than itself. -/
theorem C1_no_conflict_of_symmetric :
    ∀ (t : String) (g : Graph), read_interference_graph_from_file t = .ok g →
      SymG g →
      ∀ p ∈ g, ∀ b ∈ p.2, b ≠ p.1 → ∀ c,
        (assign_colours g (rank_nodes_by_neighbours g)).lookup p.1 = some c →
        (assign_colours g (rank_nodes_by_neighbours g)).lookup b ≠ some c := by
  intro t g hread hsym p hp b hb hne c hc1 hc2
  have hnd : (g.map Prod.fst).Nodup := read_ok_keys_nodup hread
  have hperm : List.Perm (rank_nodes_by_neighbours g) g :=
    List.perm_insertionSort rankRel g
  have hkperm : List.Perm ((rank_nodes_by_neighbours g).map Prod.fst) (g.map Prod.fst) :=
    hperm.map Prod.fst
  have hrnd : ((rank_nodes_by_neighbours g).map Prod.fst).Nodup :=
    hkperm.nodup_iff.mpr hnd
  have hproper : ProperColouring g (assign_colours g (rank_nodes_by_neighbours g)) := by
    unfold assign_colours
    refine assignAux_proper g hsym (rank_nodes_by_neighbours g) []
      (fun n hn => hkperm.mem_iff.mp hn)
      (fun n _ => rfl)
      hrnd
      (fun k c h => by cases h)
      (fun a b ca cb h1 => by cases h1)
  have hbmem : b ∈ nbrsOf g p.1 := by
    unfold nbrsOf
    rw [lookup_of_mem_of_nodup hnd hp]
    exact hb
  exact hproper p.1 b c c hc1 hc2 hbmem (Ne.symm hne) rfl

/-- Witness for C1 (amended): the symmetric input `1,2` / `2,1` parses,
node 1 receives colour A, and the theorem yields that its listed neighbour
2 does not receive colour A. -/
theorem C1_witness :
    read_interference_graph_from_file "1,2\n2,1" = .ok [(1, [2]), (2, [1])] ∧
    (assign_colours [(1, [2]), (2, [1])]
      (rank_nodes_by_neighbours [(1, [2]), (2, [1])])).lookup 1 = some 'A' ∧
    (assign_colours [(1, [2]), (2, [1])]
      (rank_nodes_by_neighbours [(1, [2]), (2, [1])])).lookup 2 ≠ some 'A' :=
  ⟨rfl, rfl,
    C1_no_conflict_of_symmetric "1,2\n2,1" [(1, [2]), (2, [1])] rfl (by decide)
      (1, [2]) (by decide) 2 (by decide) (by decide) 'A' rfl⟩

/-- C2: on the fully connected 27-node graph the code does NOT raise a
colour-exhaustion error; the 27th node in rank order (node 27) is silently
left without an assignment, while the other 26 nodes consume all colours
A..Z.  This evaluates the code at the failing input of the claim: the spec
demands an explicit ColourSpaceExhausted error here, the code has no such
error path. -/
theorem C2_complete27_silently_unassigned :
    (assign_colours complete27 (rank_nodes_by_neighbours complete27)).lookup 27 = none ∧
    (assign_colours complete27 (rank_nodes_by_neighbours complete27)).lookup 26 = some 'Z' ∧
    (assign_colours complete27 (rank_nodes_by_neighbours complete27)).length = 26 :=
  ⟨rfl, rfl, rfl⟩

/-- C3 (counterexample): on the triangle input `1,2,3` / `2,1` / `3,1` the
pipeline gives node 3 the colour B, not C as the claim states (node 3 only
lists neighbour 1, whose colour is A, so the first free colour is B). -/
theorem C3_triangle_node3_is_B :
    read_interference_graph_from_file "1,2,3\n2,1\n3,1" =
      .ok [(1, [2, 3]), (2, [1]), (3, [1])] ∧
    (assign_colours [(1, [2, 3]), (2, [1]), (3, [1])]
      (rank_nodes_by_neighbours [(1, [2, 3]), (2, [1]), (3, [1])])).lookup 3 = some 'B' ∧
    ('B' : Char) ≠ 'C' :=
  ⟨rfl, rfl, by decide⟩

/-- C3 (amended): on the triangle input `1,2,3` / `2,1` / `3,1` the
pipeline assigns node 1 → A, node 2 → B and node 3 → B (only two distinct
colours; the written output file reads `1A`, `2B`, `3B`). -/
theorem C3_triangle_assignment :
    read_interference_graph_from_file "1,2,3\n2,1\n3,1" =
      .ok [(1, [2, 3]), (2, [1]), (3, [1])] ∧
    assign_colours [(1, [2, 3]), (2, [1]), (3, [1])]
      (rank_nodes_by_neighbours [(1, [2, 3]), (2, [1]), (3, [1])]) =
      [(1, 'A'), (2, 'B'), (3, 'B')] ∧
    mainProgram "1,2,3\n2,1\n3,1" = .ok "1A\n2B\n3B\n" :=
  ⟨rfl, rfl, rfl⟩

/-- C4 (counterexample): a line declaring node id 0 is caught by the
consecutive-order check before the range check ever runs: the parser
returns the duplicate-node message, not the node-range message. -/
theorem C4_node0_is_duplicate_not_range :
    read_interference_graph_from_file "0" = .error (dupNodeMsg 0) ∧
    read_interference_graph_from_file "0" ≠ .error nodeRangeMsg := by
  refine ⟨rfl, fun h => ?_⟩
  have h0 : read_interference_graph_from_file "0" = .error (dupNodeMsg 0) := rfl
  rw [h0] at h
  injection h with h
  exact absurd h (by decide)

/-- C4 (amended): a neighbour id of 51 yields the neighbour-range error,
and a declared node id of 0 yields the duplicate-node error (the order
check precedes the node range check, which is unreachable for ids below
the expected id). -/
theorem C4_range_violations :
    read_interference_graph_from_file "1,51" = .error neighbourRangeMsg ∧
    read_interference_graph_from_file "0" = .error (dupNodeMsg 0) :=
  ⟨rfl, rfl⟩

/-- C5 (counterexample): inserting whitespace inside a neighbour token
changes the parsed graph: `1,2` parses to node 1 with neighbour set {2},
but `1, 2` parses to node 1 with the empty neighbour set, because the
token ` 2` fails the digit test and is silently dropped. -/
theorem C5_whitespace_changes_neighbours :
    read_interference_graph_from_file "1,2" = .ok [(1, [2])] ∧
    read_interference_graph_from_file "1, 2" = .ok [(1, [])] :=
  ⟨rfl, rfl⟩

theorem all_isSpace_valid {w : List Char} (h : w.all pyIsSpace = true) :
    (w.all fun c => c.isDigit || c == ',' || pyIsSpace c) = true := by
  rw [List.all_eq_true] at h ⊢
  intro c hc
  rw [h c hc]
  simp

theorem dropWhile_append_all {p : Char → Bool} {w l : List Char}
    (h : w.all p = true) : (w ++ l).dropWhile p = l.dropWhile p := by
  induction w with
  | nil => rfl
  | cons c w ih =>
    rw [List.all_cons, Bool.and_eq_true] at h
    rw [List.cons_append, List.dropWhile_cons_of_pos h.1]
    exact ih h.2

theorem pyStrip_prepend {w l : List Char} (h : w.all pyIsSpace = true) :
    pyStrip (w ++ l) = pyStrip l := by
  unfold pyStrip
  rw [dropWhile_append_all h]

theorem pyStrip_append {w l : List Char} (h : w.all pyIsSpace = true) :
    pyStrip (l ++ w) = pyStrip l := by
  unfold pyStrip
  cases hd : l.dropWhile pyIsSpace with
  | nil =>
    have hl : ∀ x ∈ l, pyIsSpace x = true := List.dropWhile_eq_nil_iff.mp hd
    have hlw : (l ++ w).dropWhile pyIsSpace = [] := by
      rw [List.dropWhile_eq_nil_iff]
      intro x hx
      rcases List.mem_append.mp hx with hxl | hxw
      · exact hl x hxl
      · exact List.all_eq_true.mp h x hxw
    rw [hlw]
  | cons a t =>
    rw [List.dropWhile_append, hd,
      if_neg (by simp : ¬((a :: t).isEmpty = true))]
    rw [List.reverse_append,
      dropWhile_append_all (by rw [List.all_reverse]; exact h)]

/-- Parsing a line only looks at the character validation verdict and at
the stripped line. -/
theorem parseLine_congr {e : Nat} {l₁ l₂ : List Char}
    (hall : (l₁.all fun c => c.isDigit || c == ',' || pyIsSpace c) =
      (l₂.all fun c => c.isDigit || c == ',' || pyIsSpace c))
    (hstrip : pyStrip l₁ = pyStrip l₂) :
    parseLine e l₁ = parseLine e l₂ := by
  unfold parseLine lineNeighbours
  rw [hall, hstrip]

theorem pyIsSpace_not_digit {c : Char} (h : pyIsSpace c = true) :
    c.isDigit = false := by
  unfold pyIsSpace at h
  simp only [Bool.or_eq_true, beq_iff_eq] at h
  rcases h with ((((rfl | rfl) | rfl) | rfl) | rfl) | rfl <;> rfl

/-- C5 (amended): leading and trailing whitespace on a line never changes
its parse result (universally), but whitespace is not harmless anywhere in
a line: a token holding any whitespace character fails the digit test
(universally), so a neighbour token with inserted whitespace is silently
dropped — `1, 2` parses to node 1 with no neighbours — and whitespace
between the digits of the leading node token makes the integer conversion
fail with the malformed-integer error — `1 2`. -/
theorem C5_whitespace_effects :
    (∀ (e : Nat) (l w₁ w₂ : List Char), w₁.all pyIsSpace = true →
      w₂.all pyIsSpace = true → parseLine e (w₁ ++ l ++ w₂) = parseLine e l) ∧
    (∀ s : List Char, s.any pyIsSpace = true → pyIsDigitStr s = false) ∧
    read_interference_graph_from_file "1, 2" = .ok [(1, [])] ∧
    read_interference_graph_from_file "1 2" = .error malformedIntMsg := by
  refine ⟨?_, ?_, rfl, rfl⟩
  · intro e l w₁ w₂ h₁ h₂
    apply parseLine_congr
    · rw [List.append_assoc, List.all_append, List.all_append,
        all_isSpace_valid h₁, all_isSpace_valid h₂]
      simp
    · rw [List.append_assoc, pyStrip_prepend h₁, pyStrip_append h₂]
  · intro s hs
    obtain ⟨c, hc, hcs⟩ := List.any_eq_true.mp hs
    have hdig : c.isDigit = false := pyIsSpace_not_digit hcs
    have hall : s.all Char.isDigit = false := by
      by_contra hcon
      rw [Bool.not_eq_false] at hcon
      have hct := List.all_eq_true.mp hcon c hc
      rw [hdig] at hct
      cases hct
    unfold pyIsDigitStr
    rw [hall, Bool.and_false]

/-- Witness for C5 (amended): surrounding whitespace leaves the parse of
`1,2` unchanged, and the token ` 2` is rejected by the digit test. -/
theorem C5_effects_witness :
    parseLine 1 (" ".data ++ "1,2".data ++ " ".data) = parseLine 1 "1,2".data ∧
    pyIsDigitStr " 2".data = false :=
  ⟨C5_whitespace_effects.1 1 "1,2".data " ".data " ".data (by decide) (by decide),
    C5_whitespace_effects.2.1 " 2".data (by decide)⟩

/-- C6: whenever parsing fails with a message, the orchestrator returns
exactly that message and never produces output-file contents: ranking,
colouring and writing are not reached. -/
theorem C6_error_stops_pipeline :
    ∀ (t m : String), read_interference_graph_from_file t = .error m →
      mainProgram t = .error m ∧ ∀ s, mainProgram t ≠ .ok s := by
  intro t m h
  constructor
  · unfold mainProgram
    rw [h]
  · intro s hs
    unfold mainProgram at hs
    rw [h] at hs
    cases hs

/-- Witness for C6: the empty input file yields the file-empty message and
no output file. -/
theorem C6_witness :
    mainProgram "" = .error fileEmptyMsg ∧ ∀ s, mainProgram "" ≠ .ok s :=
  C6_error_stops_pipeline "" fileEmptyMsg rfl

/-- C7: for every graph, rank_nodes_by_neighbours returns a permutation of
the graph entries (each node paired with its neighbour set unchanged, and
exactly one entry per graph node: key multiplicities are preserved),
sorted by descending neighbour-set size with ties by ascending node id. -/
theorem C7_rank_spec :
    ∀ g : Graph,
      List.Perm (rank_nodes_by_neighbours g) g ∧
      List.Sorted rankRel (rank_nodes_by_neighbours g) ∧
      ∀ k : Nat, List.count k ((rank_nodes_by_neighbours g).map Prod.fst) =
        List.count k (g.map Prod.fst) := by
  intro g
  refine ⟨List.perm_insertionSort rankRel g, List.sorted_insertionSort rankRel g, ?_⟩
  intro k
  exact ((List.perm_insertionSort rankRel g).map Prod.fst).count_eq k

/-- C8: the pipeline after parsing is deterministic: it depends only on
the graph, not on the representation of the neighbour sets.  For any two
association lists with the same keys in the same order whose neighbour
lists are permutations of each other (the only freedom Python set
iteration order has), the written output file contents are identical. -/
theorem C8_pipeline_deterministic :
    ∀ g₁ g₂ : Graph, GraphEquiv g₁ g₂ →
      write_output_file (assign_colours g₁ (rank_nodes_by_neighbours g₁)) =
      write_output_file (assign_colours g₂ (rank_nodes_by_neighbours g₂)) := by
  intro g₁ g₂ h
  have hr : List.Forall₂ RelNbr (rank_nodes_by_neighbours g₁) (rank_nodes_by_neighbours g₂) :=
    insertionSort_relnbr h
  have hn : ∀ x, List.Perm (nbrsOf g₁ x) (nbrsOf g₂ x) := nbrsOf_perm h
  have hasg : assign_colours g₁ (rank_nodes_by_neighbours g₁) =
      assign_colours g₂ (rank_nodes_by_neighbours g₂) :=
    assignAux_graphEquiv g₁ g₂ hn hr []
  rw [hasg]

/-- Witness for C8: two representations of the triangle graph that differ
in the order of the neighbour list of node 1 produce identical output
text. -/
theorem C8_witness :
    GraphEquiv [(1, [2, 3]), (2, [1]), (3, [1])] [(1, [3, 2]), (2, [1]), (3, [1])] ∧
    write_output_file (assign_colours [(1, [2, 3]), (2, [1]), (3, [1])]
      (rank_nodes_by_neighbours [(1, [2, 3]), (2, [1]), (3, [1])])) =
    write_output_file (assign_colours [(1, [3, 2]), (2, [1]), (3, [1])]
      (rank_nodes_by_neighbours [(1, [3, 2]), (2, [1]), (3, [1])])) := by
  have h : GraphEquiv [(1, [2, 3]), (2, [1]), (3, [1])] [(1, [3, 2]), (2, [1]), (3, [1])] :=
    List.Forall₂.cons ⟨rfl, by decide⟩
      (List.Forall₂.cons ⟨rfl, by decide⟩
        (List.Forall₂.cons ⟨rfl, by decide⟩ List.Forall₂.nil))
  exact ⟨h, C8_pipeline_deterministic _ _ h⟩

/-- C9: whenever the parser returns a graph, the keys are exactly the
consecutive integers 1..n in order, where n is the (positive) number of
input lines, and every stored neighbour id lies in [1, 50]. -/
theorem C9_parse_invariant :
    ∀ (t : String) (g : Graph), read_interference_graph_from_file t = .ok g →
      0 < (pyReadLines t).length ∧
      g.map Prod.fst = List.range' 1 (pyReadLines t).length ∧
      ∀ p ∈ g, ∀ m ∈ p.2, 1 ≤ m ∧ m ≤ 50 :=
  fun _ _ h => read_ok_spec h

/-- Witness for C9: the two-line input `1,2` / `2,1` parses to keys [1, 2]
with all neighbour ids within range. -/
theorem C9_witness :
    0 < (pyReadLines "1,2\n2,1").length ∧
    ([(1, [2]), (2, [1])] : Graph).map Prod.fst =
      List.range' 1 (pyReadLines "1,2\n2,1").length ∧
    ∀ p ∈ ([(1, [2]), (2, [1])] : Graph), ∀ m ∈ p.2, 1 ≤ m ∧ m ≤ 50 :=
  C9_parse_invariant "1,2\n2,1" [(1, [2]), (2, [1])] rfl

/-- C10: an input file consisting of a single newline character has one
(whitespace-only) line, so it is not classified as an empty file; the
empty leading token fails integer conversion and the parser returns the
malformed-integer message. -/
theorem C10_blank_line_is_malformed :
    read_interference_graph_from_file "\n" = .error malformedIntMsg ∧
    malformedIntMsg ≠ fileEmptyMsg :=
  ⟨rfl, by decide⟩
